import Mathlib

/-!
# Verification of the stt-challenge Provider Selector

A shallow embedding of the core of `github.com/agnivade/stt_challenge`:
the `ProviderSelector` (provider_selector.go), the WebSocket egress path
(websocket.go / cmd/client), and the Deepgram adapter
(providers/deepgram/deepgram.go), together with proofs about them.

Modelling conventions:
* `time.Time` values are instants on a line, modelled as `Int` (nanoseconds);
  the Go zero value `time.Time{}` is modelled as `0` and `t.After(u)` as `u < t`.
* `uint64` counters are `Nat` with an explicit `% 2 ^ 64` on increment,
  mirroring Go wrap-around (the source comments on the wrap explicitly).
* `float32` confidence values only ever get copied by the code modelled here
  (no float arithmetic occurs), so they are modelled as `Rat`.
* Go maps are association lists; the map iteration order taken by the fold is
  the list order (Go leaves it unspecified; all theorems below that depend on
  a winner either hold for every order or use an order-independent statement,
  and all counterexamples use inputs whose outcome is order-independent).
* Go channels that the selector only ever appends to are modelled as the log
  of enqueued values (the consumer drains the bounded queue); enqueues carry
  ghost origin tags so that theorems can count live forwards and flushes.
-/

namespace STT

/-- `providers.TranscriptionResult` (providers/provider.go, with the
`ProviderName` / `ReceivedAt` fields used throughout provider_selector.go and
its tests). -/
structure TranscriptionResult where
  text : String
  isFinal : Bool
  confidence : Rat
  providerName : String
  receivedAt : Int
  deriving Repr, DecidableEq, Inhabited

/-- `ProviderResultWithSeq` (provider_selector.go): a result tagged with the
per-provider sequence number. -/
structure ProviderResultWithSeq where
  result : TranscriptionResult
  seqNum : Nat
  deriving Repr, DecidableEq, Inhabited

/-- Go `uint64` increment: the source comment notes the counter "WILL wrap
around after 1<<64 - 1 times". -/
def uint64succ (n : Nat) : Nat := (n + 1) % 2 ^ 64

/-- Lookup in a Go map modelled as an association list; `d` is the zero value
returned for a missing key. -/
def lookupA {α : Type} (d : α) : List (String × α) → String → α
  | [], _ => d
  | (k, v) :: rest, key => if k = key then v else lookupA d rest key

/-- Go map assignment `m[k] = v`: overwrite the first binding of `k`, or append
a fresh binding when `k` is absent. -/
def setA {α : Type} : List (String × α) → String → α → List (String × α)
  | [], key, v => [(key, v)]
  | (k, w) :: rest, key, v =>
      if k = key then (k, v) :: rest else (k, w) :: setA rest key v

/-- Ghost-tagged enqueue on `ps.transcriptionOutput`: a result is enqueued
either as a live forward of the active provider (heuristicSelector) or as a
handover flush (sendMissedMessages). The payload is what the Go channel
actually carries. -/
inductive OutEvent where
  | live (provider : String) (seqNum : Nat) (result : TranscriptionResult)
  | flush (oldProvider newProvider : String) (seqNum : Nat)
      (result : TranscriptionResult)
  deriving Repr, DecidableEq

/-- The `providers.TranscriptionResult` value the enqueue put on the channel. -/
def OutEvent.payload : OutEvent → TranscriptionResult
  | .live _ _ r => r
  | .flush _ _ _ r => r

/-- The provider whose sequenced result this enqueue carries (for a flush that
is the new active provider, whose history the entry came from). -/
def OutEvent.sourceProvider : OutEvent → String
  | .live p _ _ => p
  | .flush _ newP _ _ => newP

/-- The sequence number of the sequenced result this enqueue carries. -/
def OutEvent.seq : OutEvent → Nat
  | .live _ s _ => s
  | .flush _ _ s _ => s

/-- The state owned by the heuristicSelector goroutine (provider_selector.go):
active provider, per-provider history, per-provider sequence counters, plus
the log of outbound enqueues and ghost logs of handovers and sequence-number
assignments. -/
structure SelectorState where
  activeProvider : String
  providerResults : List (String × List ProviderResultWithSeq)
  providerSeqCounters : List (String × Nat)
  outbound : List OutEvent
  handovers : List (String × String)
  assigned : List (String × Nat)
  deriving Repr, DecidableEq

/-- The list of results enqueued on the outbound queue, in order. -/
def SelectorState.outPayloads (st : SelectorState) : List TranscriptionResult :=
  st.outbound.map OutEvent.payload

/-- `2 * time.Second` in nanoseconds: the scoring window of
updateActiveProvider. -/
def scoringWindow : Int := 2 * 1000000000

/-- `5 * time.Second` in nanoseconds: the history window of clearOldResults. -/
def historyWindow : Int := 5 * 1000000000

/-- The `case result := <-ps.transcriptionBuffer` arm of heuristicSelector
(provider_selector.go): discard interim results; otherwise increment the
provider's counter, append the sequenced result to its history, and forward it
on the outbound queue when its provider is the active one. -/
def heuristicIntake (st : SelectorState) (result : TranscriptionResult) :
    SelectorState :=
  if result.isFinal = false then st
  else
    let seqNum := uint64succ (lookupA 0 st.providerSeqCounters result.providerName)
    let hist := lookupA [] st.providerResults result.providerName
    let st' : SelectorState :=
      { st with
        providerSeqCounters := setA st.providerSeqCounters result.providerName seqNum
        providerResults :=
          setA st.providerResults result.providerName
            (hist ++ [⟨result, seqNum⟩])
        assigned := st.assigned ++ [(result.providerName, seqNum)] }
    if result.providerName = st.activeProvider then
      { st' with outbound := st'.outbound ++ [.live result.providerName seqNum result] }
    else st'

/-- `sendMissedMessages` (provider_selector.go): on handover, if both the old
and the new provider have history, enqueue every entry of the new provider's
history whose sequence number exceeds the sequence number of the old
provider's last history entry. -/
def sendMissedMessages (st : SelectorState) (oldProvider newProvider : String) :
    SelectorState :=
  let oldResults := lookupA [] st.providerResults oldProvider
  let newResults := lookupA [] st.providerResults newProvider
  if oldResults.length = 0 ∨ newResults.length = 0 then st
  else
    let lastOldSeq := (oldResults.getLastD default).seqNum
    { st with
      outbound := st.outbound ++
        (newResults.filter (fun r => lastOldSeq < r.seqNum)).map
          (fun r => .flush oldProvider newProvider r.seqNum r.result) }

/-- One step of the scan in `updateActiveProvider`: keep the candidate unless
this entry is inside the window and more recent than the candidate
(`resultWithSeq.Result.ReceivedAt.After(windowStart) &&
resultWithSeq.Result.ReceivedAt.After(mostRecentTime)`). -/
def bestStep (windowStart : Int) (providerName : String) (acc : String × Int)
    (r : ProviderResultWithSeq) : String × Int :=
  if windowStart < r.result.receivedAt ∧ acc.2 < r.result.receivedAt then
    (providerName, r.result.receivedAt)
  else acc

/-- The scan of `updateActiveProvider` over the whole history map, starting
from `bestProvider = ""` and `mostRecentTime = time.Time{}` (modelled as 0). -/
def bestProviderScan (windowStart : Int)
    (m : List (String × List ProviderResultWithSeq)) : String × Int :=
  m.foldl (fun acc pr => pr.2.foldl (bestStep windowStart pr.1) acc) ("", 0)

/-- The switch branch of `updateActiveProvider`: send the missed messages from
the winner, record the handover (ghost), and make the winner active. -/
def handoverTo (st : SelectorState) (best : String) : SelectorState :=
  { sendMissedMessages st st.activeProvider best with
    activeProvider := best
    handovers := (sendMissedMessages st st.activeProvider best).handovers ++
      [(st.activeProvider, best)] }

/-- `updateActiveProvider` (provider_selector.go): scan every history entry,
tracking the entry with the greatest `ReceivedAt` strictly inside the
2-second window (`mostRecentTime` starts at the zero time, modelled as 0);
switch — performing the handover — only when a winner was found and it differs
from the current active provider. -/
def updateActiveProvider (st : SelectorState) (now : Int) : SelectorState :=
  if st.providerResults.length = 0 then st
  else
    let best := bestProviderScan (now - scoringWindow) st.providerResults
    if best.1 ≠ "" ∧ best.1 ≠ st.activeProvider then handoverTo st best.1
    else st

/-- `clearOldResults` (provider_selector.go): drop history entries whose
`ReceivedAt` is not after `now - 5 s`; keys are kept even when their slice
becomes empty. -/
def clearOldResults (st : SelectorState) (now : Int) : SelectorState :=
  { st with
    providerResults :=
      st.providerResults.map
        (fun pr => (pr.1, pr.2.filter (fun r => now - historyWindow < r.result.receivedAt))) }

/-- One event observed by the heuristicSelector loop: a result arriving on the
inbound buffer, or a scoring-timer tick at wall-clock time `now`. -/
inductive SelectorEvent where
  | result (r : TranscriptionResult)
  | tick (now : Int)
  deriving Repr, DecidableEq

/-- One iteration of the heuristicSelector loop: a tick runs
updateActiveProvider then clearOldResults, in that order. -/
def selectorStep (st : SelectorState) (ev : SelectorEvent) : SelectorState :=
  match ev with
  | .result r => heuristicIntake st r
  | .tick now => clearOldResults (updateActiveProvider st now) now

/-- Run the heuristicSelector loop over a list of events. -/
def runSelector (st : SelectorState) (evs : List SelectorEvent) : SelectorState :=
  evs.foldl selectorStep st

/-- The selector state right after NewProviderSelector: the active provider is
the first provider whose session was built, all maps empty. -/
def initialState (firstProvider : String) : SelectorState :=
  { activeProvider := firstProvider
    providerResults := []
    providerSeqCounters := []
    outbound := []
    handovers := []
    assigned := [] }

/-! ## Association-list lemmas -/

theorem lookupA_setA_self {α : Type} (d : α) (m : List (String × α)) (k : String)
    (v : α) : lookupA d (setA m k v) k = v := by
  induction m with
  | nil => simp [setA, lookupA]
  | cons hd tl ih =>
    by_cases h : hd.1 = k
    · simp [setA, h, lookupA]
    · simp [setA, h, lookupA, ih]

theorem lookupA_setA_ne {α : Type} (d : α) (m : List (String × α)) (k k' : String)
    (v : α) (hne : k ≠ k') : lookupA d (setA m k v) k' = lookupA d m k' := by
  induction m with
  | nil => simp [setA, lookupA, hne]
  | cons hd tl ih =>
    by_cases h : hd.1 = k
    · simp [setA, h, lookupA, hne]
    · simp [setA, h, lookupA, ih]

/-! ## C1: the handover flush -/

/-- The flush behaviour C1 attributes to `sendMissedMessages`, written from
the claim's words: `L` is the highest `seq_num` present in the old provider's
history, or 0 when that history is empty, and exactly the entries of the new
provider's history with `seq_num > L` are enqueued, in order. -/
def claimedMissedFlush (st : SelectorState) (oldProvider newProvider : String) :
    List TranscriptionResult :=
  let L := ((lookupA [] st.providerResults oldProvider).map
    ProviderResultWithSeq.seqNum).foldl max 0
  ((lookupA [] st.providerResults newProvider).filter
    (fun r => L < r.seqNum)).map ProviderResultWithSeq.result

/-- The single final result of provider B in the C1 counterexample trace. -/
def c1Result : TranscriptionResult :=
  { text := "b1", isFinal := true, confidence := 0, providerName := "B"
    receivedAt := 1800000000 }

/-- The selector state just before the scoring tick of the C1 counterexample:
provider A (active since construction) has produced nothing, provider B has
produced one final result. -/
def c1State : SelectorState :=
  runSelector (initialState "A") [.result c1Result]

/-- C1 is false on the code: at the scoring tick at t = 2 s the selector hands
over from A (empty history) to B, and `sendMissedMessages` — hitting its
`len(oldResults) == 0` early return — enqueues nothing, while the claim
(`L = 0` when the old history is empty) demands that B's whole history be
flushed. -/
theorem sendMissedMessages_emptyOld_cex :
    (selectorStep c1State (.tick 2000000000)).handovers = [("A", "B")] ∧
    (selectorStep c1State (.tick 2000000000)).outPayloads = [] ∧
    claimedMissedFlush c1State "A" "B" = [c1Result] ∧
    (selectorStep c1State (.tick 2000000000)).outPayloads ≠
      claimedMissedFlush c1State "A" "B" := by
  refine ⟨by decide, by decide, by decide, by decide⟩

theorem getLastD_map_seqNum (l : List ProviderResultWithSeq)
    (d : ProviderResultWithSeq) :
    (l.map ProviderResultWithSeq.seqNum).getLastD d.seqNum =
      (l.getLastD d).seqNum := by
  induction l generalizing d with
  | nil => rfl
  | cons hd tl ih =>
    rw [List.map_cons, List.getLastD_cons, List.getLastD_cons]
    exact ih hd

theorem foldl_max_sorted (l : List Nat) (a : Nat) (hs : l.Sorted (· < ·))
    (ha : ∀ b ∈ l, a ≤ b) (hne : l ≠ []) : l.foldl max a = l.getLastD 0 := by
  induction l generalizing a with
  | nil => exact absurd rfl hne
  | cons x tl ih =>
    rcases List.sorted_cons.mp hs with ⟨hx, htl⟩
    have hax : max a x = x := max_eq_right (ha x (by simp))
    cases tl with
    | nil => simp [hax]
    | cons y tl' =>
      have : (x :: y :: tl').foldl max a = (y :: tl').foldl max x := by
        simp [List.foldl_cons, hax]
      rw [this, List.getLastD_cons,
        ih x htl (fun b hb => le_of_lt (hx b hb)) (by simp)]
      rcases hgl : (y :: tl').getLast? with _ | z
      · exact absurd (List.getLast?_eq_none_iff.mp hgl) (by simp)
      · simp [List.getLastD, hgl]

/-- C1 amended: when either the old or the new provider's history is empty,
the handover flush enqueues nothing; otherwise `L` is the sequence number of
the *last* entry of the old provider's history — which equals the highest one
because histories are sorted by sequence number — and exactly the entries of
the new provider's history with `seq_num > L` are enqueued, in order. -/
theorem sendMissedMessages_amended (st : SelectorState)
    (oldProvider newProvider : String)
    (hsorted : ((lookupA [] st.providerResults oldProvider).map
      ProviderResultWithSeq.seqNum).Sorted (· < ·)) :
    (sendMissedMessages st oldProvider newProvider).outPayloads =
      st.outPayloads ++
        (if lookupA [] st.providerResults oldProvider = [] ∨
            lookupA [] st.providerResults newProvider = [] then []
         else claimedMissedFlush st oldProvider newProvider) := by
  by_cases hempty : lookupA [] st.providerResults oldProvider = [] ∨
      lookupA [] st.providerResults newProvider = []
  · have hlen : (lookupA [] st.providerResults oldProvider).length = 0 ∨
        (lookupA [] st.providerResults newProvider).length = 0 := by
      rcases hempty with h | h <;> simp [h]
    simp [sendMissedMessages, hlen, hempty, SelectorState.outPayloads]
  · push_neg at hempty
    have hlen : ¬ ((lookupA [] st.providerResults oldProvider).length = 0 ∨
        (lookupA [] st.providerResults newProvider).length = 0) := by
      simp [List.length_eq_zero, hempty.1, hempty.2]
    have hmax : ((lookupA [] st.providerResults oldProvider).map
        ProviderResultWithSeq.seqNum).foldl max 0 =
        ((lookupA [] st.providerResults oldProvider).getLastD default).seqNum := by
      rw [foldl_max_sorted _ 0 hsorted (fun b _ => Nat.zero_le b)
        (by simpa using hempty.1)]
      exact getLastD_map_seqNum (lookupA [] st.providerResults oldProvider)
        default
    simp [sendMissedMessages, hlen, claimedMissedFlush, hempty.1, hempty.2,
      SelectorState.outPayloads, hmax, List.map_map, Function.comp,
      OutEvent.payload]

/-- Witness for `sendMissedMessages_amended`, at the "new provider has higher
sequence numbers" scenario of TestProviderSelector_sendMissedMessages:
old provider1 has seq 1,2 and new provider2 has seq 1,3,4, so exactly the
entries with seq 3 and 4 are flushed. -/
theorem sendMissedMessages_amended_witness :
    (sendMissedMessages
        { activeProvider := "provider1"
          providerResults :=
            [("provider1",
               [⟨{ text := "old1", isFinal := true, confidence := 0,
                   providerName := "provider1", receivedAt := 0 }, 1⟩,
                ⟨{ text := "old2", isFinal := true, confidence := 0,
                   providerName := "provider1", receivedAt := 0 }, 2⟩]),
             ("provider2",
               [⟨{ text := "new1", isFinal := true, confidence := 0,
                   providerName := "provider2", receivedAt := 0 }, 1⟩,
                ⟨{ text := "new3", isFinal := true, confidence := 0,
                   providerName := "provider2", receivedAt := 0 }, 3⟩,
                ⟨{ text := "new4", isFinal := true, confidence := 0,
                   providerName := "provider2", receivedAt := 0 }, 4⟩])]
          providerSeqCounters := [("provider1", 2), ("provider2", 4)]
          outbound := []
          handovers := []
          assigned := [] } "provider1" "provider2").outPayloads.map
      TranscriptionResult.text = ["new3", "new4"] := by
  rw [sendMissedMessages_amended _ _ _ (by decide)]
  decide

/-! ## C2: the scoring tick picks the most recent in-window provider -/

theorem sendMissedMessages_activeProvider (st : SelectorState) (o n : String) :
    (sendMissedMessages st o n).activeProvider = st.activeProvider := by
  unfold sendMissedMessages
  dsimp only
  split <;> rfl

theorem sendMissedMessages_providerResults (st : SelectorState) (o n : String) :
    (sendMissedMessages st o n).providerResults = st.providerResults := by
  unfold sendMissedMessages
  dsimp only
  split <;> rfl

theorem sendMissedMessages_providerSeqCounters (st : SelectorState)
    (o n : String) :
    (sendMissedMessages st o n).providerSeqCounters = st.providerSeqCounters := by
  unfold sendMissedMessages
  dsimp only
  split <;> rfl

theorem sendMissedMessages_handovers (st : SelectorState) (o n : String) :
    (sendMissedMessages st o n).handovers = st.handovers := by
  unfold sendMissedMessages
  dsimp only
  split <;> rfl

theorem sendMissedMessages_assigned (st : SelectorState) (o n : String) :
    (sendMissedMessages st o n).assigned = st.assigned := by
  unfold sendMissedMessages
  dsimp only
  split <;> rfl

/-- The history map flattened to (provider, entry) pairs, in scan order. -/
def flatEntries (m : List (String × List ProviderResultWithSeq)) :
    List (String × ProviderResultWithSeq) :=
  m.flatMap (fun pr => pr.2.map (fun r => (pr.1, r)))

/-- The fold of `bestProviderScan` as a single fold over the flattened pairs. -/
def bestFold (ws : Int) (pairs : List (String × ProviderResultWithSeq))
    (acc : String × Int) : String × Int :=
  pairs.foldl (fun a pr => bestStep ws pr.1 a pr.2) acc

theorem mem_flatEntries {m : List (String × List ProviderResultWithSeq)}
    {p : String} {r : ProviderResultWithSeq} :
    (p, r) ∈ flatEntries m ↔ ∃ pr ∈ m, pr.1 = p ∧ r ∈ pr.2 := by
  simp only [flatEntries, List.mem_flatMap, List.mem_map, Prod.mk.injEq]
  constructor
  · rintro ⟨pr, hpr, s, hs, h1, h2⟩
    exact ⟨pr, hpr, h1, h2 ▸ hs⟩
  · rintro ⟨pr, hpr, h1, h2⟩
    exact ⟨pr, hpr, r, h2, h1, rfl⟩

theorem bestProviderScan_eq_bestFold (ws : Int) :
    ∀ (m : List (String × List ProviderResultWithSeq)) (acc : String × Int),
      m.foldl (fun acc pr => pr.2.foldl (bestStep ws pr.1) acc) acc =
        bestFold ws (flatEntries m) acc := by
  intro m
  induction m with
  | nil => intro acc; rfl
  | cons hd tl ih =>
    intro acc
    have hflat : flatEntries (hd :: tl) =
        hd.2.map (fun r => (hd.1, r)) ++ flatEntries tl := by
      simp [flatEntries]
    rw [List.foldl_cons, ih, hflat]
    unfold bestFold
    rw [List.foldl_append, List.foldl_map]

theorem bestFold_spec (ws : Int) (hws : 0 ≤ ws) :
    ∀ (pairs : List (String × ProviderResultWithSeq)) (acc : String × Int),
      0 ≤ acc.2 →
      0 ≤ (bestFold ws pairs acc).2 ∧
      acc.2 ≤ (bestFold ws pairs acc).2 ∧
      (∀ pr ∈ pairs, ws < pr.2.result.receivedAt →
        pr.2.result.receivedAt ≤ (bestFold ws pairs acc).2) ∧
      (bestFold ws pairs acc = acc ∨
        ∃ pr ∈ pairs, pr.1 = (bestFold ws pairs acc).1 ∧
          pr.2.result.receivedAt = (bestFold ws pairs acc).2 ∧
          ws < pr.2.result.receivedAt) := by
  intro pairs
  induction pairs with
  | nil =>
    intro acc hacc
    exact ⟨hacc, le_refl _, by simp, Or.inl rfl⟩
  | cons hd tl ih =>
    intro acc hacc
    by_cases hcond : ws < hd.2.result.receivedAt ∧ acc.2 < hd.2.result.receivedAt
    · have hstep : bestStep ws hd.1 acc hd.2 = (hd.1, hd.2.result.receivedAt) := by
        simp [bestStep, hcond]
      have hfold : bestFold ws (hd :: tl) acc =
          bestFold ws tl (hd.1, hd.2.result.receivedAt) := by
        simp [bestFold, List.foldl_cons, hstep]
      have h2 : (0 : Int) ≤ hd.2.result.receivedAt :=
        le_of_lt (lt_of_le_of_lt hws hcond.1)
      obtain ⟨ih0, ihmono, ihdom, ihwit⟩ := ih (hd.1, hd.2.result.receivedAt) h2
      refine ⟨by rw [hfold]; exact ih0, ?_, ?_, ?_⟩
      · rw [hfold]
        exact le_trans (le_of_lt hcond.2) ihmono
      · intro pr hpr hwin
        rcases List.mem_cons.mp hpr with h | h
        · rw [hfold, h]
          exact ihmono
        · rw [hfold]
          exact ihdom pr h hwin
      · rcases ihwit with heq | ⟨pr, hpr, hw1, hw2, hw3⟩
        · refine Or.inr ⟨hd, List.mem_cons_self _ _, ?_, ?_, hcond.1⟩
          · rw [hfold, heq]
          · rw [hfold, heq]
        · exact Or.inr ⟨pr, List.mem_cons_of_mem _ hpr, by rw [hfold]; exact hw1,
            by rw [hfold]; exact hw2, hw3⟩
    · have hstep : bestStep ws hd.1 acc hd.2 = acc := by
        simp [bestStep, hcond]
      have hfold : bestFold ws (hd :: tl) acc = bestFold ws tl acc := by
        simp [bestFold, List.foldl_cons, hstep]
      obtain ⟨ih0, ihmono, ihdom, ihwit⟩ := ih acc hacc
      refine ⟨by rw [hfold]; exact ih0, by rw [hfold]; exact ihmono, ?_, ?_⟩
      · intro pr hpr hwin
        rcases List.mem_cons.mp hpr with h | h
        · have hle : hd.2.result.receivedAt ≤ acc.2 := by
            by_contra hlt
            exact hcond ⟨h ▸ hwin, by subst h; exact lt_of_not_le hlt⟩
          rw [hfold, h]
          exact le_trans (h ▸ hle) ihmono
        · rw [hfold]
          exact ihdom pr h hwin
      · rcases ihwit with heq | ⟨pr, hpr, hw1, hw2, hw3⟩
        · exact Or.inl (by rw [hfold]; exact heq)
        · exact Or.inr ⟨pr, List.mem_cons_of_mem _ hpr, by rw [hfold]; exact hw1,
            by rw [hfold]; exact hw2, hw3⟩

/-- C2: at a scoring tick (with the clock at least 2 s past the time origin,
as any real clock is), if some provider has a history entry received strictly
inside the 2-second scoring window, the active provider after
`updateActiveProvider` is a provider owning an in-window entry whose
`ReceivedAt` is greatest among all in-window entries; if no provider has any
in-window entry, the active provider is unchanged. Provider names are
non-empty strings (the scan's sentinel for "no winner" is `""`). -/
theorem updateActiveProvider_picks_most_recent (st : SelectorState) (now : Int)
    (hnow : 0 ≤ now - scoringWindow)
    (hne : ∀ pr ∈ st.providerResults, pr.1 ≠ "") :
    ((∃ pr ∈ st.providerResults, ∃ r ∈ pr.2,
        now - scoringWindow < r.result.receivedAt) →
      ∃ pr ∈ st.providerResults,
        pr.1 = (updateActiveProvider st now).activeProvider ∧
        ∃ r ∈ pr.2, now - scoringWindow < r.result.receivedAt ∧
          ∀ qr ∈ st.providerResults, ∀ s ∈ qr.2,
            now - scoringWindow < s.result.receivedAt →
              s.result.receivedAt ≤ r.result.receivedAt) ∧
    ((∀ pr ∈ st.providerResults, ∀ r ∈ pr.2,
        r.result.receivedAt ≤ now - scoringWindow) →
      (updateActiveProvider st now).activeProvider = st.activeProvider) := by
  have hscan : bestProviderScan (now - scoringWindow) st.providerResults =
      bestFold (now - scoringWindow) (flatEntries st.providerResults) ("", 0) :=
    bestProviderScan_eq_bestFold (now - scoringWindow) st.providerResults ("", 0)
  obtain ⟨h0, hmono, hdom, hwit⟩ :=
    bestFold_spec (now - scoringWindow) hnow (flatEntries st.providerResults)
      ("", 0) (le_refl 0)
  constructor
  · rintro ⟨pr, hpr, r, hr, hwin⟩
    have hmem : (pr.1, r) ∈ flatEntries st.providerResults :=
      mem_flatEntries.mpr ⟨pr, hpr, rfl, hr⟩
    have hpos : 0 < (bestFold (now - scoringWindow)
        (flatEntries st.providerResults) ("", 0)).2 :=
      lt_of_le_of_lt hnow (lt_of_lt_of_le hwin (hdom (pr.1, r) hmem hwin))
    have hnotacc : bestFold (now - scoringWindow) (flatEntries st.providerResults)
        ("", 0) ≠ ("", 0) := by
      intro h
      rw [h] at hpos
      exact lt_irrefl 0 hpos
    rcases hwit with heq | ⟨qc, hqc, hq1, hq2, hq3⟩
    · exact absurd heq hnotacc
    · obtain ⟨pc, hpc, hpc1, hpcr⟩ := mem_flatEntries.mp hqc
      have hbest1 : (bestProviderScan (now - scoringWindow)
          st.providerResults).1 ≠ "" := by
        rw [hscan, ← hq1, ← hpc1]
        exact hne pc hpc
      have hactive : (updateActiveProvider st now).activeProvider =
          (bestProviderScan (now - scoringWindow) st.providerResults).1 := by
        unfold updateActiveProvider
        have hlen : ¬ st.providerResults.length = 0 := by
          intro h
          rw [List.length_eq_zero.mp h] at hpr
          exact absurd hpr (List.not_mem_nil pr)
        rw [if_neg hlen]
        dsimp only
        by_cases hguard : (bestProviderScan (now - scoringWindow)
            st.providerResults).1 ≠ "" ∧
            (bestProviderScan (now - scoringWindow) st.providerResults).1 ≠
              st.activeProvider
        · rw [if_pos hguard]
          rfl
        · rw [if_neg hguard]
          push_neg at hguard
          exact (hguard hbest1).symm
      refine ⟨pc, hpc, ?_, qc.2, hpcr, hq3, ?_⟩
      · rw [hactive, hscan, ← hq1]
        exact hpc1
      · intro qr hqr s hs hswin
        have : (qr.1, s) ∈ flatEntries st.providerResults :=
          mem_flatEntries.mpr ⟨qr, hqr, rfl, hs⟩
        rw [hq2]
        exact hdom (qr.1, s) this hswin
  · intro hall
    have hbase : bestFold (now - scoringWindow) (flatEntries st.providerResults)
        ("", 0) = ("", 0) := by
      rcases hwit with heq | ⟨qc, hqc, _, _, hq3⟩
      · exact heq
      · obtain ⟨pc, hpc, _, hpcr⟩ := mem_flatEntries.mp hqc
        exact absurd hq3 (not_lt.mpr (hall pc hpc qc.2 hpcr))
    unfold updateActiveProvider
    by_cases hlen : st.providerResults.length = 0
    · rw [if_pos hlen]
    · rw [if_neg hlen]
      dsimp only
      have hguard : ¬ ((bestProviderScan (now - scoringWindow)
          st.providerResults).1 ≠ "" ∧
          (bestProviderScan (now - scoringWindow) st.providerResults).1 ≠
            st.activeProvider) := by
        rw [hscan, hbase]
        simp
      rw [if_neg hguard]

/-- The concrete selector state used as witness input for C2: provider p1
(active) holds an entry 1.5 s old, provider p2 an entry 0.2 s old, at the
t = 3 s tick. -/
def c2WitnessState : SelectorState :=
  { activeProvider := "p1"
    providerResults :=
      [("p1", [⟨{ text := "hello", isFinal := true, confidence := 0,
                  providerName := "p1", receivedAt := 1500000000 }, 1⟩]),
       ("p2", [⟨{ text := "world", isFinal := true, confidence := 0,
                  providerName := "p2", receivedAt := 2800000000 }, 1⟩])]
    providerSeqCounters := [("p1", 1), ("p2", 1)]
    outbound := []
    handovers := []
    assigned := [] }

/-- Witness for `updateActiveProvider_picks_most_recent`, at the t = 3 s tick
on `c2WitnessState`. -/
theorem updateActiveProvider_picks_most_recent_witness :
    ((∃ pr ∈ c2WitnessState.providerResults, ∃ r ∈ pr.2,
        3000000000 - scoringWindow < r.result.receivedAt) →
      ∃ pr ∈ c2WitnessState.providerResults,
        pr.1 = (updateActiveProvider c2WitnessState 3000000000).activeProvider ∧
        ∃ r ∈ pr.2, 3000000000 - scoringWindow < r.result.receivedAt ∧
          ∀ qr ∈ c2WitnessState.providerResults, ∀ s ∈ qr.2,
            3000000000 - scoringWindow < s.result.receivedAt →
              s.result.receivedAt ≤ r.result.receivedAt) ∧
    ((∀ pr ∈ c2WitnessState.providerResults, ∀ r ∈ pr.2,
        r.result.receivedAt ≤ 3000000000 - scoringWindow) →
      (updateActiveProvider c2WitnessState 3000000000).activeProvider =
        c2WitnessState.activeProvider) :=
  updateActiveProvider_picks_most_recent c2WitnessState 3000000000 (by decide)
    (by decide)

/-! ## Counting outbound enqueues, handovers, and intake assignments -/

/-- Whether an outbound enqueue is the live forward of provider `p`'s result
with sequence number `s`. -/
def isLiveFor (p : String) (s : Nat) : OutEvent → Bool
  | .live q n _ => q == p && n == s
  | .flush _ _ _ _ => false

/-- Whether an outbound enqueue is a handover flush of provider `p`'s result
with sequence number `s`. -/
def isFlushFor (p : String) (s : Nat) : OutEvent → Bool
  | .flush _ q n _ => q == p && n == s
  | .live _ _ _ => false

/-- How many times provider `p`'s sequenced result `s` was enqueued as a live
forward. -/
def liveCount (st : SelectorState) (p : String) (s : Nat) : Nat :=
  (st.outbound.filter (isLiveFor p s)).length

/-- How many times provider `p`'s sequenced result `s` was enqueued as a
handover flush. -/
def flushCount (st : SelectorState) (p : String) (s : Nat) : Nat :=
  (st.outbound.filter (isFlushFor p s)).length

/-- How many times provider `p`'s sequenced result `s` was enqueued on the
outbound queue, in total. -/
def outCount (st : SelectorState) (p : String) (s : Nat) : Nat :=
  (st.outbound.filter (fun e => isLiveFor p s e || isFlushFor p s e)).length

/-- How many handovers switched the active provider *to* `p`. -/
def handoversInto (st : SelectorState) (p : String) : Nat :=
  (st.handovers.filter (fun h => h.2 == p)).length

/-- How many final results of provider `p` a list of events carries. -/
def countFinals (evs : List SelectorEvent) (p : String) : Nat :=
  (evs.filter (fun ev =>
    match ev with
    | .result r => r.isFinal && r.providerName == p
    | .tick _ => false)).length

/-- The sequence numbers assigned to provider `p`'s results, in intake order. -/
def assignedSeqs (st : SelectorState) (p : String) : List Nat :=
  (st.assigned.filter (fun q => q.1 == p)).map Prod.snd

theorem filter_or_length {α : Type} (f g : α → Bool) (l : List α)
    (h : ∀ a, f a = true → g a = false) :
    (l.filter (fun e => f e || g e)).length =
      (l.filter f).length + (l.filter g).length := by
  induction l with
  | nil => rfl
  | cons e tl ih =>
    by_cases hf : f e = true
    · have hg := h e hf
      simp only [List.filter_cons, hf, hg, Bool.true_or, if_true, if_false,
        Bool.false_eq_true, List.length_cons, ih]
      omega
    · have hf' : f e = false := by
        revert hf
        cases f e <;> simp
      by_cases hg : g e = true
      · simp only [List.filter_cons, hf', hg, Bool.false_or, if_true, if_false,
          Bool.false_eq_true, List.length_cons, ih]
        omega
      · have hg' : g e = false := by
          revert hg
          cases g e <;> simp
        simp only [List.filter_cons, hf', hg', Bool.false_or, if_false,
          Bool.false_eq_true, ih]

theorem outCount_eq_live_add_flush (st : SelectorState) (p : String) (s : Nat) :
    outCount st p s = liveCount st p s + flushCount st p s := by
  unfold outCount liveCount flushCount
  refine filter_or_length _ _ _ ?_
  intro e he
  cases e with
  | live q n r => rfl
  | flush o q n r => exact absurd he (by simp [isLiveFor])

/-- The invariant of the heuristicSelector loop for one provider `p`: its
history is sorted by sequence number, bounded by its counter; each sequenced
result has been live-forwarded at most once, and never with a sequence number
above the counter; each sequenced result has been flushed at most once per
handover into `p`; and the assigned sequence numbers are `1, …, counter`. -/
def SeqInv (st : SelectorState) (p : String) : Prop :=
  ((lookupA [] st.providerResults p).map ProviderResultWithSeq.seqNum).Sorted
      (· < ·) ∧
  (∀ r ∈ lookupA [] st.providerResults p,
    r.seqNum ≤ lookupA 0 st.providerSeqCounters p) ∧
  (∀ s, liveCount st p s ≤ 1) ∧
  (∀ s, lookupA 0 st.providerSeqCounters p < s → liveCount st p s = 0) ∧
  (∀ s, flushCount st p s ≤ handoversInto st p) ∧
  assignedSeqs st p = List.range' 1 (lookupA 0 st.providerSeqCounters p)

/-! ## Effects of each selector operation on the counters -/

theorem length_filter_concat {α : Type} (f : α → Bool) (l : List α) (e : α) :
    ((l ++ [e]).filter f).length =
      (l.filter f).length + (if f e = true then 1 else 0) := by
  rw [List.filter_append, List.length_append]
  by_cases h : f e = true <;> simp [List.filter, h]

theorem filter_isLiveFor_batch (p : String) (s : Nat) (o n : String)
    (l : List ProviderResultWithSeq) :
    (l.map (fun r => OutEvent.flush o n r.seqNum r.result)).filter
      (isLiveFor p s) = [] := by
  induction l with
  | nil => rfl
  | cons hd tl ih => simp [List.filter_cons, isLiveFor, ih]

theorem filter_isFlushFor_batch_ne (p : String) (s : Nat) (o n : String)
    (hne : n ≠ p) (l : List ProviderResultWithSeq) :
    (l.map (fun r => OutEvent.flush o n r.seqNum r.result)).filter
      (isFlushFor p s) = [] := by
  induction l with
  | nil => rfl
  | cons hd tl ih => simp [List.filter_cons, isFlushFor, ih, hne]

theorem filter_isFlushFor_batch_self (p : String) (s : Nat) (o : String)
    (l : List ProviderResultWithSeq)
    (hs : (l.map ProviderResultWithSeq.seqNum).Sorted (· < ·)) :
    ((l.map (fun r => OutEvent.flush o p r.seqNum r.result)).filter
      (isFlushFor p s)).length ≤ 1 := by
  induction l with
  | nil => simp
  | cons hd tl ih =>
    rw [List.map_cons] at hs
    rcases List.sorted_cons.mp hs with ⟨hhd, htl⟩
    by_cases h : hd.seqNum = s
    · have hrest : (tl.map (fun r => OutEvent.flush o p r.seqNum r.result)).filter
          (isFlushFor p s) = [] := by
        rw [List.filter_eq_nil_iff]
        intro e he
        obtain ⟨r, hr, rfl⟩ := List.mem_map.mp he
        have hlt : hd.seqNum < r.seqNum := hhd _ (List.mem_map_of_mem _ hr)
        simp only [isFlushFor, Bool.and_eq_true, beq_iff_eq, not_and]
        intro _
        omega
      simp [List.filter_cons, isFlushFor, h, hrest]
    · simp only [List.map_cons, List.filter_cons, isFlushFor, beq_self_eq_true,
        Bool.true_and, beq_iff_eq, h, if_false]
      exact ih htl

theorem sendMissedMessages_liveCount (st : SelectorState) (o n p : String)
    (s : Nat) : liveCount (sendMissedMessages st o n) p s = liveCount st p s := by
  unfold sendMissedMessages liveCount
  dsimp only
  split
  · rfl
  · dsimp only
    rw [List.filter_append, filter_isLiveFor_batch]
    simp

theorem sendMissedMessages_flushCount_ne (st : SelectorState) (o n p : String)
    (s : Nat) (hne : n ≠ p) :
    flushCount (sendMissedMessages st o n) p s = flushCount st p s := by
  unfold sendMissedMessages flushCount
  dsimp only
  split
  · rfl
  · dsimp only
    rw [List.filter_append, filter_isFlushFor_batch_ne p s _ _ hne]
    simp

theorem sendMissedMessages_flushCount_self (st : SelectorState) (o p : String)
    (s : Nat)
    (hs : ((lookupA [] st.providerResults p).map
      ProviderResultWithSeq.seqNum).Sorted (· < ·)) :
    flushCount (sendMissedMessages st o p) p s ≤ flushCount st p s + 1 := by
  unfold sendMissedMessages flushCount
  dsimp only
  split
  · exact Nat.le_succ _
  · dsimp only
    rw [List.filter_append, List.length_append]
    have hsub : (((lookupA [] st.providerResults p).filter
        (fun r => ((lookupA [] st.providerResults o).getLastD default).seqNum <
          r.seqNum)).map ProviderResultWithSeq.seqNum).Sorted (· < ·) :=
      hs.sublist ((List.filter_sublist _).map ProviderResultWithSeq.seqNum)
    exact Nat.add_le_add_left (filter_isFlushFor_batch_self p s o _ hsub) _

theorem handoverTo_outbound (st : SelectorState) (b : String) :
    (handoverTo st b).outbound =
      (sendMissedMessages st st.activeProvider b).outbound := rfl

theorem handoverTo_providerResults (st : SelectorState) (b : String) :
    (handoverTo st b).providerResults = st.providerResults := by
  rw [show (handoverTo st b).providerResults =
    (sendMissedMessages st st.activeProvider b).providerResults from rfl]
  exact sendMissedMessages_providerResults st _ b

theorem handoverTo_providerSeqCounters (st : SelectorState) (b : String) :
    (handoverTo st b).providerSeqCounters = st.providerSeqCounters := by
  rw [show (handoverTo st b).providerSeqCounters =
    (sendMissedMessages st st.activeProvider b).providerSeqCounters from rfl]
  exact sendMissedMessages_providerSeqCounters st _ b

theorem handoverTo_assigned (st : SelectorState) (b : String) :
    (handoverTo st b).assigned = st.assigned := by
  rw [show (handoverTo st b).assigned =
    (sendMissedMessages st st.activeProvider b).assigned from rfl]
  exact sendMissedMessages_assigned st _ b

theorem handoverTo_handovers (st : SelectorState) (b : String) :
    (handoverTo st b).handovers = st.handovers ++ [(st.activeProvider, b)] := by
  rw [show (handoverTo st b).handovers =
    (sendMissedMessages st st.activeProvider b).handovers ++
      [(st.activeProvider, b)] from rfl]
  rw [sendMissedMessages_handovers]

theorem handoversInto_handoverTo (st : SelectorState) (b p : String) :
    handoversInto (handoverTo st b) p =
      handoversInto st p + (if b = p then 1 else 0) := by
  unfold handoversInto
  rw [handoverTo_handovers, List.filter_append, List.length_append]
  by_cases h : b = p <;> simp [h]

theorem liveCount_outbound_eq (st st' : SelectorState) (p : String) (s : Nat)
    (h : st'.outbound = st.outbound) : liveCount st' p s = liveCount st p s := by
  unfold liveCount
  rw [h]

theorem flushCount_outbound_eq (st st' : SelectorState) (p : String) (s : Nat)
    (h : st'.outbound = st.outbound) : flushCount st' p s = flushCount st p s := by
  unfold flushCount
  rw [h]

theorem handoverTo_inv (st : SelectorState) (b p : String)
    (hinv : SeqInv st p) : SeqInv (handoverTo st b) p := by
  obtain ⟨hsor, hbound, hl1, hl2, hf1, hasg⟩ := hinv
  refine ⟨?_, ?_, ?_, ?_, ?_, ?_⟩
  · rw [handoverTo_providerResults]
    exact hsor
  · rw [handoverTo_providerResults, handoverTo_providerSeqCounters]
    exact hbound
  · intro s
    rw [liveCount_outbound_eq (sendMissedMessages st st.activeProvider b)
      (handoverTo st b) p s (handoverTo_outbound st b),
      sendMissedMessages_liveCount]
    exact hl1 s
  · intro s hs
    rw [handoverTo_providerSeqCounters] at hs
    rw [liveCount_outbound_eq (sendMissedMessages st st.activeProvider b)
      (handoverTo st b) p s (handoverTo_outbound st b),
      sendMissedMessages_liveCount]
    exact hl2 s hs
  · intro s
    rw [flushCount_outbound_eq (sendMissedMessages st st.activeProvider b)
      (handoverTo st b) p s (handoverTo_outbound st b),
      handoversInto_handoverTo]
    by_cases hb : b = p
    · subst hb
      calc flushCount (sendMissedMessages st st.activeProvider b) b s
          ≤ flushCount st b s + 1 :=
            sendMissedMessages_flushCount_self st _ b s hsor
        _ ≤ handoversInto st b + 1 := Nat.add_le_add_right (hf1 s) 1
        _ = handoversInto st b + (if b = b then 1 else 0) := by simp
    · rw [sendMissedMessages_flushCount_ne st _ b p s hb]
      exact le_trans (hf1 s) (Nat.le_add_right _ _)
  · unfold assignedSeqs at hasg ⊢
    rw [handoverTo_assigned, handoverTo_providerSeqCounters]
    exact hasg

theorem lookupA_mapFilter (f : ProviderResultWithSeq → Bool)
    (m : List (String × List ProviderResultWithSeq)) (k : String) :
    lookupA [] (m.map (fun pr => (pr.1, pr.2.filter f))) k =
      (lookupA [] m k).filter f := by
  induction m with
  | nil => rfl
  | cons hd tl ih =>
    by_cases h : hd.1 = k <;> simp [lookupA, h, ih]

theorem clearOldResults_inv (st : SelectorState) (now : Int) (p : String)
    (hinv : SeqInv st p) : SeqInv (clearOldResults st now) p := by
  obtain ⟨hsor, hbound, hl1, hl2, hf1, hasg⟩ := hinv
  have hlook : lookupA [] (clearOldResults st now).providerResults p =
      (lookupA [] st.providerResults p).filter
        (fun r => decide (now - historyWindow < r.result.receivedAt)) := by
    unfold clearOldResults
    exact lookupA_mapFilter _ st.providerResults p
  refine ⟨?_, ?_, hl1, hl2, hf1, hasg⟩
  · rw [hlook]
    exact hsor.sublist ((List.filter_sublist _).map ProviderResultWithSeq.seqNum)
  · intro r hr
    rw [hlook] at hr
    exact hbound r (List.mem_of_mem_filter hr)

theorem updateActiveProvider_inv (st : SelectorState) (now : Int) (p : String)
    (hinv : SeqInv st p) : SeqInv (updateActiveProvider st now) p := by
  unfold updateActiveProvider
  split
  · exact hinv
  · dsimp only
    split
    · exact handoverTo_inv st _ p hinv
    · exact hinv

theorem updateActiveProvider_providerSeqCounters (st : SelectorState)
    (now : Int) :
    (updateActiveProvider st now).providerSeqCounters =
      st.providerSeqCounters := by
  unfold updateActiveProvider
  split
  · rfl
  · dsimp only
    split
    · exact handoverTo_providerSeqCounters st _
    · rfl

theorem heuristicIntake_nonfinal (st : SelectorState) (r : TranscriptionResult)
    (hf : r.isFinal = false) : heuristicIntake st r = st := by
  simp [heuristicIntake, hf]

theorem heuristicIntake_providerSeqCounters (st : SelectorState)
    (r : TranscriptionResult) (hf : r.isFinal = true) :
    (heuristicIntake st r).providerSeqCounters =
      setA st.providerSeqCounters r.providerName
        (uint64succ (lookupA 0 st.providerSeqCounters r.providerName)) := by
  have hne : ¬ (r.isFinal = false) := by simp [hf]
  simp only [heuristicIntake, if_neg hne]
  split <;> rfl

theorem heuristicIntake_providerResults (st : SelectorState)
    (r : TranscriptionResult) (hf : r.isFinal = true) :
    (heuristicIntake st r).providerResults =
      setA st.providerResults r.providerName
        (lookupA [] st.providerResults r.providerName ++
          [⟨r, uint64succ (lookupA 0 st.providerSeqCounters r.providerName)⟩]) := by
  have hne : ¬ (r.isFinal = false) := by simp [hf]
  simp only [heuristicIntake, if_neg hne]
  split <;> rfl

theorem heuristicIntake_assigned (st : SelectorState) (r : TranscriptionResult)
    (hf : r.isFinal = true) :
    (heuristicIntake st r).assigned =
      st.assigned ++ [(r.providerName,
        uint64succ (lookupA 0 st.providerSeqCounters r.providerName))] := by
  have hne : ¬ (r.isFinal = false) := by simp [hf]
  simp only [heuristicIntake, if_neg hne]
  split <;> rfl

theorem heuristicIntake_handovers (st : SelectorState) (r : TranscriptionResult)
    (hf : r.isFinal = true) :
    (heuristicIntake st r).handovers = st.handovers := by
  have hne : ¬ (r.isFinal = false) := by simp [hf]
  simp only [heuristicIntake, if_neg hne]
  split <;> rfl

theorem heuristicIntake_outbound (st : SelectorState) (r : TranscriptionResult)
    (hf : r.isFinal = true) :
    (heuristicIntake st r).outbound =
      st.outbound ++
        (if r.providerName = st.activeProvider then
          [OutEvent.live r.providerName
            (uint64succ (lookupA 0 st.providerSeqCounters r.providerName)) r]
         else []) := by
  have hne : ¬ (r.isFinal = false) := by simp [hf]
  simp only [heuristicIntake, if_neg hne]
  split
  · rfl
  · simp

theorem heuristicIntake_inv (st : SelectorState) (r : TranscriptionResult)
    (p : String) (hinv : SeqInv st p)
    (hnw : r.isFinal = true → r.providerName = p →
      lookupA 0 st.providerSeqCounters p + 1 < 2 ^ 64) :
    SeqInv (heuristicIntake st r) p ∧
    lookupA 0 (heuristicIntake st r).providerSeqCounters p =
      lookupA 0 st.providerSeqCounters p +
        (if r.isFinal && (r.providerName == p) then 1 else 0) := by
  obtain ⟨hsor, hbound, hl1, hl2, hf1, hasg⟩ := hinv
  by_cases hf : r.isFinal = true
  · have hcnt := heuristicIntake_providerSeqCounters st r hf
    have hres := heuristicIntake_providerResults st r hf
    have hout := heuristicIntake_outbound st r hf
    have hass := heuristicIntake_assigned st r hf
    have hhand := heuristicIntake_handovers st r hf
    by_cases hp : r.providerName = p
    · have hlt : lookupA 0 st.providerSeqCounters p + 1 < 2 ^ 64 := hnw hf hp
      have hsq : uint64succ (lookupA 0 st.providerSeqCounters p) =
          lookupA 0 st.providerSeqCounters p + 1 := by
        simp only [uint64succ]
        exact Nat.mod_eq_of_lt hlt
      have hcntp : lookupA 0 (heuristicIntake st r).providerSeqCounters p =
          lookupA 0 st.providerSeqCounters p + 1 := by
        rw [hcnt, hp, lookupA_setA_self]
        exact hsq
      have hresp : lookupA [] (heuristicIntake st r).providerResults p =
          lookupA [] st.providerResults p ++
            [⟨r, lookupA 0 st.providerSeqCounters p + 1⟩] := by
        rw [hres, hp, lookupA_setA_self, hsq]
      have hlive : ∀ s, liveCount (heuristicIntake st r) p s =
          liveCount st p s +
            (if r.providerName = st.activeProvider then
              (if lookupA 0 st.providerSeqCounters p + 1 = s then 1 else 0)
             else 0) := by
        intro s
        unfold liveCount
        rw [hout]
        by_cases hact : r.providerName = st.activeProvider
        · rw [if_pos hact, if_pos hact, length_filter_concat]
          congr 1
          rw [hp, hsq]
          simp only [isLiveFor, beq_self_eq_true, Bool.true_and, beq_iff_eq]
        · rw [if_neg hact, if_neg hact, List.append_nil]
          omega
      have hflush : ∀ s, flushCount (heuristicIntake st r) p s =
          flushCount st p s := by
        intro s
        unfold flushCount
        rw [hout]
        by_cases hact : r.providerName = st.activeProvider
        · rw [if_pos hact, length_filter_concat]
          simp [isFlushFor]
        · rw [if_neg hact, List.append_nil]
      refine ⟨⟨?_, ?_, ?_, ?_, ?_, ?_⟩, ?_⟩
      · rw [hresp, List.map_append]
        rw [List.Sorted, List.pairwise_append]
        refine ⟨hsor, by simp, ?_⟩
        intro a ha b hb
        obtain ⟨e, he, rfl⟩ := List.mem_map.mp ha
        simp only [List.map_cons, List.map_nil, List.mem_singleton] at hb
        subst hb
        exact lt_of_le_of_lt (hbound e he) (Nat.lt_succ_self _)
      · intro e he
        rw [hresp] at he
        rw [hcntp]
        rcases List.mem_append.mp he with h | h
        · exact le_trans (hbound e h) (Nat.le_succ _)
        · simp only [List.mem_singleton] at h
          subst h
          exact le_refl _
      · intro s
        rw [hlive s]
        by_cases hact : r.providerName = st.activeProvider
        · rw [if_pos hact]
          by_cases hs : lookupA 0 st.providerSeqCounters p + 1 = s
          · rw [if_pos hs]
            have : liveCount st p s = 0 := hl2 s (by omega)
            omega
          · rw [if_neg hs]
            have := hl1 s
            omega
        · rw [if_neg hact]
          have := hl1 s
          omega
      · intro s hs
        rw [hcntp] at hs
        rw [hlive s]
        have hz : liveCount st p s = 0 := hl2 s (by omega)
        by_cases hact : r.providerName = st.activeProvider
        · rw [if_pos hact, if_neg (by omega : ¬ lookupA 0
            st.providerSeqCounters p + 1 = s)]
          omega
        · rw [if_neg hact]
          omega
      · intro s
        rw [hflush s]
        unfold handoversInto
        rw [hhand]
        exact hf1 s
      · unfold assignedSeqs
        rw [hass, hcntp, List.filter_append, List.map_append]
        unfold assignedSeqs at hasg
        rw [hasg, hp]
        have : (([(p, lookupA 0 st.providerSeqCounters p + 1)]).filter
            (fun q => q.1 == p)).map Prod.snd =
            [lookupA 0 st.providerSeqCounters p + 1] := by
          simp [hsq]
        rw [hsq, this, List.range'_1_concat]
        congr 1
        simp [Nat.add_comm]
      · rw [hcntp]
        have : (r.isFinal && (r.providerName == p)) = true := by
          simp [hf, hp]
        rw [if_pos this]
    · have hcntp : lookupA 0 (heuristicIntake st r).providerSeqCounters p =
          lookupA 0 st.providerSeqCounters p := by
        rw [hcnt, lookupA_setA_ne _ _ _ _ _ hp]
      have hresp : lookupA [] (heuristicIntake st r).providerResults p =
          lookupA [] st.providerResults p := by
        rw [hres, lookupA_setA_ne _ _ _ _ _ hp]
      have hlive : ∀ s, liveCount (heuristicIntake st r) p s =
          liveCount st p s := by
        intro s
        unfold liveCount
        rw [hout]
        by_cases hact : r.providerName = st.activeProvider
        · rw [if_pos hact, length_filter_concat]
          simp [isLiveFor, hp]
        · rw [if_neg hact, List.append_nil]
      have hflush : ∀ s, flushCount (heuristicIntake st r) p s =
          flushCount st p s := by
        intro s
        unfold flushCount
        rw [hout]
        by_cases hact : r.providerName = st.activeProvider
        · rw [if_pos hact, length_filter_concat]
          simp [isFlushFor]
        · rw [if_neg hact, List.append_nil]
      refine ⟨⟨?_, ?_, ?_, ?_, ?_, ?_⟩, ?_⟩
      · rw [hresp]
        exact hsor
      · intro e he
        rw [hresp] at he
        rw [hcntp]
        exact hbound e he
      · intro s
        rw [hlive s]
        exact hl1 s
      · intro s hs
        rw [hcntp] at hs
        rw [hlive s]
        exact hl2 s hs
      · intro s
        rw [hflush s]
        unfold handoversInto
        rw [hhand]
        exact hf1 s
      · unfold assignedSeqs
        rw [hass, hcntp, List.filter_append, List.map_append]
        unfold assignedSeqs at hasg
        have : (([(r.providerName,
            uint64succ (lookupA 0 st.providerSeqCounters r.providerName))]).filter
            (fun q => q.1 == p)) = [] := by
          simp [hp]
        rw [this, hasg]
        simp
      · rw [hcntp]
        have : (r.isFinal && (r.providerName == p)) = false := by
          simp [hp]
        rw [this]
        simp
  · have hf' : r.isFinal = false := by
      revert hf
      cases r.isFinal <;> simp
    rw [heuristicIntake_nonfinal st r hf']
    refine ⟨⟨hsor, hbound, hl1, hl2, hf1, hasg⟩, ?_⟩
    rw [hf']
    simp

/-! ## Running the selector loop preserves the invariant -/

theorem countFinals_cons_result (r : TranscriptionResult)
    (tl : List SelectorEvent) (p : String) :
    countFinals (.result r :: tl) p =
      (if r.isFinal && (r.providerName == p) then 1 else 0) + countFinals tl p := by
  unfold countFinals
  rw [List.filter_cons]
  by_cases h : (r.isFinal && (r.providerName == p)) = true
  · simp [h]
    omega
  · simp [h]

theorem countFinals_cons_tick (now : Int) (tl : List SelectorEvent)
    (p : String) :
    countFinals (.tick now :: tl) p = countFinals tl p := by
  unfold countFinals
  rw [List.filter_cons]
  simp

theorem tick_inv (st : SelectorState) (now : Int) (p : String)
    (hinv : SeqInv st p) : SeqInv (selectorStep st (.tick now)) p :=
  clearOldResults_inv (updateActiveProvider st now) now p
    (updateActiveProvider_inv st now p hinv)

theorem tick_providerSeqCounters (st : SelectorState) (now : Int) :
    (selectorStep st (.tick now)).providerSeqCounters =
      st.providerSeqCounters := by
  show (clearOldResults (updateActiveProvider st now) now).providerSeqCounters =
    st.providerSeqCounters
  rw [show (clearOldResults (updateActiveProvider st now) now).providerSeqCounters
    = (updateActiveProvider st now).providerSeqCounters from rfl]
  exact updateActiveProvider_providerSeqCounters st now

theorem runSelector_inv (p : String) :
    ∀ (evs : List SelectorEvent) (st : SelectorState), SeqInv st p →
      lookupA 0 st.providerSeqCounters p + countFinals evs p < 2 ^ 64 →
      SeqInv (runSelector st evs) p ∧
      lookupA 0 (runSelector st evs).providerSeqCounters p =
        lookupA 0 st.providerSeqCounters p + countFinals evs p := by
  intro evs
  induction evs with
  | nil =>
    intro st hinv _
    refine ⟨hinv, ?_⟩
    simp [runSelector, countFinals]
  | cons ev tl ih =>
    intro st hinv hbound
    cases ev with
    | result r =>
      have hrun : runSelector st (.result r :: tl) =
          runSelector (heuristicIntake st r) tl := rfl
      rw [countFinals_cons_result] at hbound
      have hnw : r.isFinal = true → r.providerName = p →
          lookupA 0 st.providerSeqCounters p + 1 < 2 ^ 64 := by
        intro h1 h2
        rw [if_pos (by simp [h1, h2])] at hbound
        omega
      obtain ⟨hinv2, hc2⟩ := heuristicIntake_inv st r p hinv hnw
      have hbound2 : lookupA 0 (heuristicIntake st r).providerSeqCounters p +
          countFinals tl p < 2 ^ 64 := by
        rw [hc2]
        by_cases h : (r.isFinal && (r.providerName == p)) = true
        · rw [if_pos h] at hbound ⊢
          omega
        · rw [if_neg h] at hbound ⊢
          omega
      obtain ⟨hfin, hcfin⟩ := ih (heuristicIntake st r) hinv2 hbound2
      rw [hrun]
      refine ⟨hfin, ?_⟩
      rw [hcfin, hc2, countFinals_cons_result]
      omega
    | tick now =>
      have hrun : runSelector st (.tick now :: tl) =
          runSelector (selectorStep st (.tick now)) tl := rfl
      rw [countFinals_cons_tick] at hbound
      have hc2 : lookupA 0 (selectorStep st (.tick now)).providerSeqCounters p =
          lookupA 0 st.providerSeqCounters p := by
        rw [tick_providerSeqCounters]
      obtain ⟨hfin, hcfin⟩ := ih (selectorStep st (.tick now))
        (tick_inv st now p hinv) (by rw [hc2]; exact hbound)
      rw [hrun]
      refine ⟨hfin, ?_⟩
      rw [hcfin, hc2, countFinals_cons_tick]

theorem initialState_inv (first p : String) : SeqInv (initialState first) p := by
  refine ⟨?_, ?_, ?_, ?_, ?_, ?_⟩ <;>
    simp [initialState, lookupA, liveCount, flushCount, handoversInto,
      assignedSeqs, SeqInv]

/-! ## C4: how often one sequenced result can be enqueued -/

/-- The C4 counterexample trace (times in nanoseconds): providers A and B,
A initially active. A's third final result a3 (seq 3, t = 1.5 s) is forwarded
live; the t = 4 s tick hands over B→A and flushes a3 (B's last seq is 1); the
t = 8 s tick hands over B→A again and flushes a3 a second time (B's last seq
is 2, and a3 — received 1.5 s in, last pruned at the 6 s tick against the
1 s cutoff — is still in A's 5-second history). -/
def c4Trace : List SelectorEvent :=
  [ .result { text := "a1", isFinal := true, confidence := 0,
              providerName := "A", receivedAt := 500000000 },
    .result { text := "a2", isFinal := true, confidence := 0,
              providerName := "A", receivedAt := 1000000000 },
    .result { text := "a3", isFinal := true, confidence := 0,
              providerName := "A", receivedAt := 1500000000 },
    .result { text := "b1", isFinal := true, confidence := 0,
              providerName := "B", receivedAt := 1800000000 },
    .tick 2000000000,
    .result { text := "a4", isFinal := true, confidence := 0,
              providerName := "A", receivedAt := 3500000000 },
    .tick 4000000000,
    .result { text := "b2", isFinal := true, confidence := 0,
              providerName := "B", receivedAt := 5500000000 },
    .tick 6000000000,
    .result { text := "a5", isFinal := true, confidence := 0,
              providerName := "A", receivedAt := 7500000000 },
    .tick 8000000000 ]

/-- C4 is false on the code: on `c4Trace`, provider A's sequenced result 3 is
enqueued on the outbound queue three times (once live, once per each of the
two handovers into A), exceeding the claimed bound of two. -/
theorem outbound_enqueued_thrice_cex :
    outCount (runSelector (initialState "A") c4Trace) "A" 3 = 3 ∧
    ¬ outCount (runSelector (initialState "A") c4Trace) "A" 3 ≤ 2 := by
  refine ⟨by decide, by decide⟩

/-- C4 amended: over a session with fewer than `2 ^ 64` final results from
provider `p`, each sequenced result of `p` is enqueued at most once as a live
forward, at most once per handover into `p` as a flush, and hence at most
`1 + (number of handovers into p)` times in total — but nothing bounds the
number of handovers into `p`, so the same result can be enqueued three or
more times. -/
theorem outbound_enqueue_bound (evs : List SelectorEvent) (first p : String)
    (s : Nat) (hcount : countFinals evs p < 2 ^ 64) :
    liveCount (runSelector (initialState first) evs) p s ≤ 1 ∧
    flushCount (runSelector (initialState first) evs) p s ≤
      handoversInto (runSelector (initialState first) evs) p ∧
    outCount (runSelector (initialState first) evs) p s ≤
      1 + handoversInto (runSelector (initialState first) evs) p := by
  have h0 : lookupA 0 (initialState first).providerSeqCounters p +
      countFinals evs p < 2 ^ 64 := by
    simpa [initialState, lookupA] using hcount
  obtain ⟨⟨_, _, hl1, _, hf1, _⟩, _⟩ :=
    runSelector_inv p evs (initialState first) (initialState_inv first p) h0
  refine ⟨hl1 s, hf1 s, ?_⟩
  rw [outCount_eq_live_add_flush]
  have := hl1 s
  have := hf1 s
  omega

/-- Witness for `outbound_enqueue_bound` on the C4 counterexample trace: the
amended bound holds there with three enqueues against two handovers into A. -/
theorem outbound_enqueue_bound_witness :
    countFinals c4Trace "A" < 2 ^ 64 ∧
    outCount (runSelector (initialState "A") c4Trace) "A" 3 ≤
      1 + handoversInto (runSelector (initialState "A") c4Trace) "A" :=
  ⟨by decide, (outbound_enqueue_bound c4Trace "A" "A" 3 (by decide)).2.2⟩

/-! ## C7: per-provider sequence numbers are 1, 2, 3, … in intake order -/

/-- C7: over one session with fewer than `2 ^ 64` final results from provider
`p` (the `uint64` counter wraps beyond that, as the source comment concedes),
the sequence numbers the selector assigns to `p`'s final results, in intake
order, are exactly `1, 2, …, k` where `k` is the number of `p`'s final
results — strictly increasing, no gap, no repeat. -/
theorem seqNum_assignment (evs : List SelectorEvent) (first p : String)
    (hcount : countFinals evs p < 2 ^ 64) :
    assignedSeqs (runSelector (initialState first) evs) p =
      List.range' 1 (countFinals evs p) := by
  have h0 : lookupA 0 (initialState first).providerSeqCounters p +
      countFinals evs p < 2 ^ 64 := by
    simpa [initialState, lookupA] using hcount
  obtain ⟨⟨_, _, _, _, _, hasg⟩, hcnt⟩ :=
    runSelector_inv p evs (initialState first) (initialState_inv first p) h0
  rw [hasg, hcnt]
  simp [initialState, lookupA]

/-- Witness for `seqNum_assignment`: on the C4 trace provider A's five final
results get the sequence numbers [1, 2, 3, 4, 5]. -/
theorem seqNum_assignment_witness :
    countFinals c4Trace "A" < 2 ^ 64 ∧
    assignedSeqs (runSelector (initialState "A") c4Trace) "A" =
      List.range' 1 (countFinals c4Trace "A") :=
  ⟨by decide, seqNum_assignment c4Trace "A" "A" (by decide)⟩

/-! ## C8: only final results are stored or enqueued -/

theorem mem_setA {α : Type} (m : List (String × α)) (k : String) (v : α) :
    ∀ pr ∈ setA m k v, pr ∈ m ∨ pr = (k, v) := by
  induction m with
  | nil =>
    intro pr hpr
    simp only [setA, List.mem_singleton] at hpr
    exact Or.inr hpr
  | cons hd tl ih =>
    obtain ⟨a, b⟩ := hd
    intro pr hpr
    by_cases h : a = k
    · rw [setA, if_pos h] at hpr
      rcases List.mem_cons.mp hpr with h1 | h1
      · subst h1
        exact Or.inr (by rw [h])
      · exact Or.inl (List.mem_cons_of_mem _ h1)
    · rw [setA, if_neg h] at hpr
      rcases List.mem_cons.mp hpr with h1 | h1
      · exact Or.inl (h1 ▸ List.mem_cons_self _ _)
      · rcases ih pr h1 with h2 | h2
        · exact Or.inl (List.mem_cons_of_mem _ h2)
        · exact Or.inr h2

theorem lookupA_mem {α : Type} (d : α) (m : List (String × α)) (k : String) :
    lookupA d m k = d ∨ (k, lookupA d m k) ∈ m := by
  induction m with
  | nil => exact Or.inl rfl
  | cons hd tl ih =>
    obtain ⟨a, b⟩ := hd
    by_cases h : a = k
    · right
      rw [lookupA, if_pos h]
      rw [← h]
      exact List.mem_cons_self _ _
    · rw [lookupA, if_neg h]
      rcases ih with h1 | h1
      · exact Or.inl h1
      · exact Or.inr (List.mem_cons_of_mem _ h1)

/-- The C8 invariant: every enqueued outbound result and every stored history
entry is a final result. -/
def FinalInvP (st : SelectorState) : Prop :=
  (∀ e ∈ st.outbound, e.payload.isFinal = true) ∧
  (∀ pr ∈ st.providerResults, ∀ e ∈ pr.2, e.result.isFinal = true)

theorem finalInv_hist (st : SelectorState) (h : FinalInvP st) (q : String) :
    ∀ e ∈ lookupA [] st.providerResults q, e.result.isFinal = true := by
  intro e he
  rcases lookupA_mem [] st.providerResults q with hd | hm
  · rw [hd] at he
    exact absurd he (List.not_mem_nil e)
  · exact h.2 _ hm e he

theorem heuristicIntake_finalInv (st : SelectorState) (r : TranscriptionResult)
    (h : FinalInvP st) : FinalInvP (heuristicIntake st r) := by
  by_cases hf : r.isFinal = true
  · constructor
    · intro e he
      rw [heuristicIntake_outbound st r hf] at he
      rcases List.mem_append.mp he with h1 | h1
      · exact h.1 e h1
      · by_cases hact : r.providerName = st.activeProvider
        · rw [if_pos hact] at h1
          simp only [List.mem_singleton] at h1
          subst h1
          exact hf
        · rw [if_neg hact] at h1
          exact absurd h1 (List.not_mem_nil e)
    · intro pr hpr e he
      rw [heuristicIntake_providerResults st r hf] at hpr
      rcases mem_setA _ _ _ pr hpr with h1 | h1
      · exact h.2 pr h1 e he
      · subst h1
        rcases List.mem_append.mp he with h2 | h2
        · exact finalInv_hist st h r.providerName e h2
        · simp only [List.mem_singleton] at h2
          subst h2
          exact hf
  · rw [heuristicIntake_nonfinal st r (by revert hf; cases r.isFinal <;> simp)]
    exact h

theorem sendMissedMessages_outbound (st : SelectorState) (o n : String) :
    (sendMissedMessages st o n).outbound = st.outbound ∨
    (sendMissedMessages st o n).outbound = st.outbound ++
      ((lookupA [] st.providerResults n).filter
        (fun r => ((lookupA [] st.providerResults o).getLastD
          default).seqNum < r.seqNum)).map
        (fun r => OutEvent.flush o n r.seqNum r.result) := by
  unfold sendMissedMessages
  dsimp only
  split
  · exact Or.inl rfl
  · exact Or.inr rfl

theorem sendMissedMessages_finalInv (st : SelectorState) (o n : String)
    (h : FinalInvP st) : FinalInvP (sendMissedMessages st o n) := by
  constructor
  · intro e he
    rcases sendMissedMessages_outbound st o n with ho | ho
    · rw [ho] at he
      exact h.1 e he
    · rw [ho] at he
      rcases List.mem_append.mp he with h1 | h1
      · exact h.1 e h1
      · obtain ⟨r, hr, rfl⟩ := List.mem_map.mp h1
        exact finalInv_hist st h n r (List.mem_of_mem_filter hr)
  · intro pr hpr e he
    rw [sendMissedMessages_providerResults] at hpr
    exact h.2 pr hpr e he

theorem handoverTo_finalInv (st : SelectorState) (b : String)
    (h : FinalInvP st) : FinalInvP (handoverTo st b) := by
  constructor
  · intro e he
    rw [handoverTo_outbound] at he
    exact (sendMissedMessages_finalInv st st.activeProvider b h).1 e he
  · intro pr hpr e he
    rw [handoverTo_providerResults] at hpr
    exact h.2 pr hpr e he

theorem updateActiveProvider_finalInv (st : SelectorState) (now : Int)
    (h : FinalInvP st) : FinalInvP (updateActiveProvider st now) := by
  unfold updateActiveProvider
  split
  · exact h
  · dsimp only
    split
    · exact handoverTo_finalInv st _ h
    · exact h

theorem clearOldResults_finalInv (st : SelectorState) (now : Int)
    (h : FinalInvP st) : FinalInvP (clearOldResults st now) := by
  constructor
  · intro e he
    exact h.1 e he
  · intro pr hpr e he
    unfold clearOldResults at hpr
    dsimp only at hpr
    obtain ⟨qr, hqr, rfl⟩ := List.mem_map.mp hpr
    exact h.2 qr hqr e (List.mem_of_mem_filter he)

theorem runSelector_finalInv :
    ∀ (evs : List SelectorEvent) (st : SelectorState), FinalInvP st →
      FinalInvP (runSelector st evs) := by
  intro evs
  induction evs with
  | nil => exact fun st h => h
  | cons ev tl ih =>
    intro st h
    cases ev with
    | result r =>
      exact ih (heuristicIntake st r) (heuristicIntake_finalInv st r h)
    | tick now =>
      exact ih (selectorStep st (.tick now))
        (clearOldResults_finalInv _ now (updateActiveProvider_finalInv st now h))

/-- C8: on any run of the selector loop from a fresh state, every result ever
enqueued on the outbound queue is final, and every entry of every provider's
history is final — non-final results are discarded at intake, so live forwards
and handover flushes alike carry only final results. -/
theorem no_interim_stored_or_forwarded (evs : List SelectorEvent)
    (first : String) :
    ((runSelector (initialState first) evs).outbound.all
      (fun e => e.payload.isFinal)) = true ∧
    ((runSelector (initialState first) evs).providerResults.all
      (fun pr => pr.2.all (fun e => e.result.isFinal))) = true := by
  have h := runSelector_finalInv evs (initialState first)
    ⟨by simp [initialState], by simp [initialState]⟩
  constructor
  · rw [List.all_eq_true]
    intro e he
    exact h.1 e he
  · rw [List.all_eq_true]
    intro pr hpr
    rw [List.all_eq_true]
    intro e he
    exact h.2 pr hpr e he

/-! ## C5 and C6: Close, and SendAudio after Close -/

/-- A Go run-time panic raised by channel operations. -/
inductive GoPanic where
  | closeOfClosedChannel
  | sendOnClosedChannel
  deriving Repr, DecidableEq

/-- The run-time state of a ProviderSelector as far as Close and SendAudio
observe it: the context's cancellation flag, the closed flags of the three
channels, the audio queue fill (capacity 100), and each session's closed
flag. -/
structure SelectorRuntime where
  ctxCanceled : Bool
  audioInputClosed : Bool
  audioInputLen : Nat
  transcriptionOutputClosed : Bool
  transcriptionBufferClosed : Bool
  sessionsClosed : List Bool
  deriving Repr, DecidableEq

/-- `ProviderSelector.Close` (provider_selector.go): `ps.cancel()`, then
`close(ps.audioInput)` — which panics when that channel is already closed —
then `session.Close()` on every session (errors are only logged), then
`ps.wg.Wait()`, `close(ps.transcriptionOutput)` and
`close(ps.transcriptionBuffer)`. -/
def providerSelectorClose (st : SelectorRuntime) :
    Except GoPanic SelectorRuntime :=
  let st1 := { st with ctxCanceled := true }
  if st1.audioInputClosed then .error .closeOfClosedChannel
  else
    let st2 := { st1 with audioInputClosed := true }
    let st3 := { st2 with sessionsClosed := st2.sessionsClosed.map (fun _ => true) }
    if st3.transcriptionOutputClosed then .error .closeOfClosedChannel
    else
      let st4 := { st3 with transcriptionOutputClosed := true }
      if st4.transcriptionBufferClosed then .error .closeOfClosedChannel
      else .ok { st4 with transcriptionBufferClosed := true }

/-- The runtime state NewProviderSelector leaves behind, with two sessions. -/
def openSelectorRuntime : SelectorRuntime :=
  { ctxCanceled := false, audioInputClosed := false, audioInputLen := 0,
    transcriptionOutputClosed := false, transcriptionBufferClosed := false,
    sessionsClosed := [false, false] }

/-- The state after one successful Close of `openSelectorRuntime`. -/
def closedSelectorRuntime : SelectorRuntime :=
  { ctxCanceled := true, audioInputClosed := true, audioInputLen := 0,
    transcriptionOutputClosed := true, transcriptionBufferClosed := true,
    sessionsClosed := [true, true] }

/-- C5 is false on the code: the first Close succeeds and leaves the selector
closed, but a second Close panics on `close(ps.audioInput)` — close of an
already-closed channel — instead of succeeding. -/
theorem close_not_idempotent_cex :
    providerSelectorClose openSelectorRuntime = .ok closedSelectorRuntime ∧
    providerSelectorClose closedSelectorRuntime =
      .error .closeOfClosedChannel := by
  refine ⟨by rfl, by rfl⟩

/-- The state a successful Close leaves behind: everything cancelled and
closed. -/
def closedFrom (st : SelectorRuntime) : SelectorRuntime :=
  { st with
    ctxCanceled := true
    audioInputClosed := true
    sessionsClosed := st.sessionsClosed.map (fun _ => true)
    transcriptionOutputClosed := true
    transcriptionBufferClosed := true }

/-- C5 amended: Close is not idempotent. From any state in which no channel
has been closed yet, Close succeeds exactly once and leaves the selector
closed (shutdown signalled, audio queue closed, every session closed,
outbound queue and inbound buffer closed); calling Close again on the
resulting state panics closing the already-closed audio queue. -/
theorem providerSelectorClose_once (st : SelectorRuntime)
    (ha : st.audioInputClosed = false)
    (ho : st.transcriptionOutputClosed = false)
    (hb : st.transcriptionBufferClosed = false) :
    ∃ st', providerSelectorClose st = .ok st' ∧
      st'.ctxCanceled = true ∧ st'.audioInputClosed = true ∧
      (∀ c ∈ st'.sessionsClosed, c = true) ∧
      st'.transcriptionOutputClosed = true ∧
      st'.transcriptionBufferClosed = true ∧
      providerSelectorClose st' = .error .closeOfClosedChannel := by
  refine ⟨closedFrom st, ?_, rfl, rfl, ?_, rfl, rfl, ?_⟩
  · simp [providerSelectorClose, closedFrom, ha, ho, hb]
  · intro c hc
    obtain ⟨_, _, h⟩ := List.mem_map.mp hc
    exact h.symm
  · simp [providerSelectorClose, closedFrom]

/-- Witness for `providerSelectorClose_once` at the fresh two-session state. -/
theorem providerSelectorClose_once_witness :
    ∃ st', providerSelectorClose openSelectorRuntime = .ok st' ∧
      st'.ctxCanceled = true ∧ st'.audioInputClosed = true ∧
      (∀ c ∈ st'.sessionsClosed, c = true) ∧
      st'.transcriptionOutputClosed = true ∧
      st'.transcriptionBufferClosed = true ∧
      providerSelectorClose st' = .error .closeOfClosedChannel :=
  providerSelectorClose_once openSelectorRuntime rfl rfl rfl

/-- The two branches of the `select` in `ProviderSelector.SendAudio`. -/
inductive SendBranch where
  | send
  | ctxDone
  deriving Repr, DecidableEq

/-- Whether a branch of that select can proceed (Go picks uniformly at random
among the branches that can): the send on `ps.audioInput` can proceed when the
channel is closed — a send on a closed channel "proceeds" by panicking — or
when the buffer (capacity 100) has room; the `<-ps.ctx.Done()` branch can
proceed once the context is cancelled. -/
def sendBranchReady (st : SelectorRuntime) : SendBranch → Bool
  | .send => st.audioInputClosed || decide (st.audioInputLen < 100)
  | .ctxDone => st.ctxCanceled

/-- The observable outcome of one `SendAudio` call. -/
inductive SendOutcome where
  | ok
  | eof
  | panicked (p : GoPanic)
  deriving Repr, DecidableEq

/-- `ProviderSelector.SendAudio` (provider_selector.go), given the select
branch the scheduler picked: the send branch panics when the audio channel is
closed and otherwise enqueues and returns nil; the done branch returns io.EOF
because the context built by NewProviderSelector (`context.WithCancel`) only
ever reports `context.Canceled`. -/
def sendAudioSelect (st : SelectorRuntime) : SendBranch → SendOutcome
  | .send =>
    if st.audioInputClosed then .panicked .sendOnClosedChannel else .ok
  | .ctxDone => .eof

/-- C6 is false on the code: after Close both select branches are ready, and
when the scheduler picks the send branch the call panics — a send on the
closed audio channel — rather than returning io.EOF. -/
theorem sendAudio_after_close_panic_cex :
    providerSelectorClose openSelectorRuntime = .ok closedSelectorRuntime ∧
    sendBranchReady closedSelectorRuntime .send = true ∧
    sendAudioSelect closedSelectorRuntime .send =
      .panicked .sendOnClosedChannel ∧
    sendAudioSelect closedSelectorRuntime .send ≠ .eof := by
  refine ⟨by rfl, by rfl, by rfl, by decide⟩

/-- C6 amended: after Close (context cancelled, audio queue closed), a
SendAudio call either returns io.EOF (cancellation branch) or panics with a
send on a closed channel (send branch); whenever it returns instead of
panicking, the value is io.EOF, never nil and never another error. -/
theorem sendAudio_after_close (st : SelectorRuntime) (b : SendBranch)
    (_hc : st.ctxCanceled = true) (ha : st.audioInputClosed = true)
    (hr : sendBranchReady st b = true) :
    (sendAudioSelect st b = .eof ∨
      sendAudioSelect st b = .panicked .sendOnClosedChannel) ∧
    sendAudioSelect st b ≠ .ok := by
  cases b
  · refine ⟨Or.inr ?_, ?_⟩ <;> simp [sendAudioSelect, ha]
  · refine ⟨Or.inl rfl, ?_⟩
    simp [sendAudioSelect]

/-- Witness for `sendAudio_after_close` at the closed two-session state with
the cancellation branch picked. -/
theorem sendAudio_after_close_witness :
    (sendAudioSelect closedSelectorRuntime .ctxDone = .eof ∨
      sendAudioSelect closedSelectorRuntime .ctxDone =
        .panicked .sendOnClosedChannel) ∧
    sendAudioSelect closedSelectorRuntime .ctxDone ≠ .ok :=
  sendAudio_after_close closedSelectorRuntime .ctxDone rfl rfl rfl

/-! ## C9: buffer copying in the Audio Distributor -/

/-- Read a byte buffer from the heap of live `[]byte` allocations. -/
def heapGet : List (Nat × List Nat) → Nat → List Nat
  | [], _ => []
  | (k, v) :: rest, r => if k = r then v else heapGet rest r

/-- Overwrite a byte buffer in place (what a caller mutating its slice does). -/
def heapSet : List (Nat × List Nat) → Nat → List Nat → List (Nat × List Nat)
  | [], r, v => [(r, v)]
  | (k, w) :: rest, r, v =>
      if k = r then (k, v) :: rest else (k, w) :: heapSet rest r v

/-- The world the Audio Distributor acts in: a heap of byte buffers (slice
reference ↦ contents), a fresh-reference counter, the refs sitting in
`ps.audioInput`, and, per distributed frame, the copy refs handed to the
sessions. -/
structure DistWorld where
  heap : List (Nat × List Nat)
  nextRef : Nat
  audioQueue : List Nat
  delivered : List (List Nat)
  deriving Repr, DecidableEq

/-- `ProviderSelector.SendAudio` as the caller sees it: the slice reference
itself is enqueued on `ps.audioInput`; no copy is taken at enqueue time. -/
def sendAudioRef (w : DistWorld) (r : Nat) : DistWorld :=
  { w with audioQueue := w.audioQueue ++ [r] }

/-- A mutation of an existing buffer by whoever holds its reference. -/
def mutateBuf (w : DistWorld) (r : Nat) (bytes : List Nat) : DistWorld :=
  { w with heap := heapSet w.heap r bytes }

/-- One iteration of `audioDistributor` (provider_selector.go) with `n` live
sessions: dequeue the next frame and, in each per-session goroutine, allocate
a fresh buffer, copy the frame's *current* contents into it
(`audioCopy := make([]byte, len(audioData)); copy(audioCopy, audioData)`) and
hand that private copy to the session's SendAudio. -/
def distributeNext (w : DistWorld) (n : Nat) : DistWorld :=
  match w.audioQueue with
  | [] => w
  | r :: rest =>
    let contents := heapGet w.heap r
    let copies := (List.range n).map (fun i => w.nextRef + i)
    { heap := copies.foldl (fun h c => heapSet h c contents) w.heap
      nextRef := w.nextRef + n
      audioQueue := rest
      delivered := w.delivered ++ [copies] }

/-- The C9 counterexample world: one client buffer, ref 0, bytes [1, 2, 3]. -/
def c9World : DistWorld :=
  { heap := [(0, [1, 2, 3])], nextRef := 1, audioQueue := [], delivered := [] }

/-- C9 is false on the code: the copy is taken at *delivery* time, not when
SendAudio returns. Two runs identical except that the caller mutates its
buffer after SendAudio returned but before the Distributor dequeued the frame
deliver different bytes to the session: [1, 2, 3] without the mutation,
[9, 9, 9] with it. -/
theorem mutation_before_distribution_cex :
    (distributeNext (sendAudioRef c9World 0) 1).delivered = [[1]] ∧
    (distributeNext (mutateBuf (sendAudioRef c9World 0) 0 [9, 9, 9]) 1).delivered
      = [[1]] ∧
    heapGet (distributeNext (sendAudioRef c9World 0) 1).heap 1 = [1, 2, 3] ∧
    heapGet (distributeNext (mutateBuf (sendAudioRef c9World 0) 0 [9, 9, 9])
      1).heap 1 = [9, 9, 9] ∧
    heapGet (distributeNext (sendAudioRef c9World 0) 1).heap 1 ≠
      heapGet (distributeNext (mutateBuf (sendAudioRef c9World 0) 0 [9, 9, 9])
        1).heap 1 := by
  refine ⟨by decide, by decide, by decide, by decide, by decide⟩

theorem heapGet_heapSet_self (h : List (Nat × List Nat)) (r : Nat)
    (v : List Nat) : heapGet (heapSet h r v) r = v := by
  induction h with
  | nil => simp [heapSet, heapGet]
  | cons hd tl ih =>
    by_cases hk : hd.1 = r
    · simp [heapSet, heapGet, hk]
    · simp [heapSet, heapGet, hk, ih]

theorem heapGet_heapSet_ne (h : List (Nat × List Nat)) (r r' : Nat)
    (v : List Nat) (hne : r ≠ r') : heapGet (heapSet h r v) r' = heapGet h r' := by
  induction h with
  | nil => simp [heapSet, heapGet, hne]
  | cons hd tl ih =>
    by_cases hk : hd.1 = r
    · simp [heapSet, heapGet, hk, hne]
    · simp [heapSet, heapGet, hk, ih]

theorem heapGet_foldl_not_mem (v : List Nat) :
    ∀ (l : List Nat) (h : List (Nat × List Nat)) (c : Nat), c ∉ l →
      heapGet (l.foldl (fun h c => heapSet h c v) h) c = heapGet h c := by
  intro l
  induction l with
  | nil => intro h c _; rfl
  | cons x tl ih =>
    intro h c hc
    rw [List.foldl_cons, ih (heapSet h x v) c (fun hin => hc
      (List.mem_cons_of_mem _ hin)), heapGet_heapSet_ne]
    intro hx
    exact hc (hx ▸ List.mem_cons_self _ _)

theorem heapGet_foldl_mem (v : List Nat) :
    ∀ (l : List Nat) (h : List (Nat × List Nat)) (c : Nat), l.Nodup → c ∈ l →
      heapGet (l.foldl (fun h c => heapSet h c v) h) c = v := by
  intro l
  induction l with
  | nil => intro h c _ hc; exact absurd hc (List.not_mem_nil c)
  | cons x tl ih =>
    intro h c hnd hc
    rcases List.mem_cons.mp hc with h1 | h1
    · subst h1
      rw [List.foldl_cons,
        heapGet_foldl_not_mem v tl _ c (List.nodup_cons.mp hnd).1,
        heapGet_heapSet_self]
    · exact ih (heapSet h x v) c (List.nodup_cons.mp hnd).2 h1

/-- C9 amended: each Session is handed a *private copy made at delivery
time*. When the Distributor distributes the frame at the head of the queue,
the copy references are fresh (at or above the allocation watermark, hence
distinct from every pre-existing buffer, the caller's included) and pairwise
distinct, each copy holds the frame's contents as of delivery time, and
mutating any pre-existing buffer afterwards — in particular the caller's —
leaves every delivered copy unchanged. Mutating the caller's buffer between
SendAudio and delivery, however, is visible (see the counterexample). -/
theorem distributor_private_copies (w : DistWorld) (n r : Nat)
    (rest : List Nat) (hq : w.audioQueue = r :: rest)
    (r' : Nat) (hr' : r' < w.nextRef) (bytes : List Nat) :
    (distributeNext w n).delivered =
      w.delivered ++ [(List.range n).map (fun i => w.nextRef + i)] ∧
    ((List.range n).map (fun i => w.nextRef + i)).Nodup ∧
    (∀ c ∈ (List.range n).map (fun i => w.nextRef + i),
      w.nextRef ≤ c ∧
      heapGet (distributeNext w n).heap c = heapGet w.heap r ∧
      heapGet (mutateBuf (distributeNext w n) r' bytes).heap c =
        heapGet (distributeNext w n).heap c) := by
  have hstep : distributeNext w n =
      { heap := ((List.range n).map (fun i => w.nextRef + i)).foldl
          (fun h c => heapSet h c (heapGet w.heap r)) w.heap
        nextRef := w.nextRef + n
        audioQueue := rest
        delivered := w.delivered ++ [(List.range n).map (fun i => w.nextRef + i)] } := by
    unfold distributeNext
    rw [hq]
  have hnd : ((List.range n).map (fun i => w.nextRef + i)).Nodup :=
    (List.nodup_range n).map (fun a b hab => by omega)
  refine ⟨by rw [hstep], hnd, ?_⟩
  intro c hc
  obtain ⟨i, hi, rfl⟩ := List.mem_map.mp hc
  refine ⟨Nat.le_add_right _ _, ?_, ?_⟩
  · rw [hstep]
    exact heapGet_foldl_mem _ _ _ _ hnd hc
  · show heapGet (heapSet (distributeNext w n).heap r' bytes) _ = _
    exact heapGet_heapSet_ne _ _ _ _ (by omega)

/-- Witness for `distributor_private_copies`: the C9 world with the frame
enqueued, one session, and a later mutation of the caller's buffer ref 0. -/
theorem distributor_private_copies_witness :
    ((distributeNext (sendAudioRef c9World 0) 1).delivered =
      (sendAudioRef c9World 0).delivered ++
        [(List.range 1).map (fun i => (sendAudioRef c9World 0).nextRef + i)]) ∧
    ((List.range 1).map (fun i => (sendAudioRef c9World 0).nextRef + i)).Nodup ∧
    (∀ c ∈ (List.range 1).map (fun i => (sendAudioRef c9World 0).nextRef + i),
      (sendAudioRef c9World 0).nextRef ≤ c ∧
      heapGet (distributeNext (sendAudioRef c9World 0) 1).heap c =
        heapGet (sendAudioRef c9World 0).heap 0 ∧
      heapGet (mutateBuf (distributeNext (sendAudioRef c9World 0) 1) 0
        [7, 7]).heap c =
        heapGet (distributeNext (sendAudioRef c9World 0) 1).heap c) :=
  distributor_private_copies (sendAudioRef c9World 0) 1 0 [] (by decide) 0
    (by decide) [7, 7]

/-! ## C10: the Deepgram callback drops finals when the channel is full -/

/-- Go's `unicode.IsSpace` (the set `strings.TrimSpace` trims): Unicode
White_Space code points. -/
def goIsSpace (c : Char) : Bool :=
  (0x09 ≤ c.toNat && c.toNat ≤ 0x0D) || c.toNat == 0x20 || c.toNat == 0x85 ||
  c.toNat == 0xA0 || c.toNat == 0x1680 ||
  (0x2000 ≤ c.toNat && c.toNat ≤ 0x200A) || c.toNat == 0x2028 ||
  c.toNat == 0x2029 || c.toNat == 0x202F || c.toNat == 0x205F ||
  c.toNat == 0x3000

/-- `strings.TrimSpace`: drop leading and trailing white space. -/
def trimSpace (s : String) : String :=
  String.mk (((s.data.dropWhile goIsSpace).reverse.dropWhile goIsSpace).reverse)

/-- One alternative of a Deepgram message (`mr.Channel.Alternatives`). -/
structure MessageAlternative where
  transcript : String
  altConfidence : Rat
  deriving Repr, DecidableEq

/-- The part of `api.MessageResponse` the callback reads. -/
structure MessageResponse where
  alternatives : List MessageAlternative
  isFinal : Bool
  deriving Repr, DecidableEq

/-- `make(chan providers.TranscriptionResult, 10)` in deepgram.NewSession. -/
def dgChannelCap : Nat := 10

/-- The non-blocking send of `CallbackHandler.Message`
(`select { case ch <- result: default: }`): enqueue when the buffered channel
has room, otherwise fall through to `default` and drop the value. -/
def trySendResult (q : List TranscriptionResult) (r : TranscriptionResult) :
    List TranscriptionResult :=
  if q.length < dgChannelCap then q ++ [r] else q

/-- `CallbackHandler.Message` (providers/deepgram/deepgram.go): return at once
when there are no alternatives or the trimmed transcript is empty; otherwise
build the result (stamped `time.Now()`), and only when it is final try the
non-blocking send on the session's result channel. -/
def messageCallback (mr : MessageResponse) (now : Int)
    (q : List TranscriptionResult) : List TranscriptionResult :=
  match mr.alternatives with
  | [] => q
  | alternative :: _ =>
    let sentence := trimSpace alternative.transcript
    if sentence = "" then q
    else
      let result : TranscriptionResult :=
        { text := sentence, isFinal := mr.isFinal,
          confidence := alternative.altConfidence,
          providerName := "deepgram", receivedAt := now }
      if result.isFinal then trySendResult q result else q

/-- The observable events at the session's result channel: a callback firing,
or `ReceiveTranscription` dequeuing (it blocks — here: does nothing — while
the channel is empty). -/
inductive DGEvent where
  | message (mr : MessageResponse) (now : Int)
  | receive
  deriving Repr

/-- The channel, everything ever dequeued by `ReceiveTranscription`, and
everything ever successfully enqueued by the callback, in order. -/
structure DGState where
  queue : List TranscriptionResult
  received : List TranscriptionResult
  enqueued : List TranscriptionResult
  deriving Repr, DecidableEq

def dgStep (st : DGState) : DGEvent → DGState
  | .message mr now =>
    let q := messageCallback mr now st.queue
    { st with queue := q, enqueued := st.enqueued ++ q.drop st.queue.length }
  | .receive =>
    match st.queue with
    | [] => st
    | r :: rest => { st with queue := rest, received := st.received ++ [r] }

def runDG (evs : List DGEvent) : DGState :=
  evs.foldl dgStep { queue := [], received := [], enqueued := [] }

theorem messageCallback_full (mr : MessageResponse) (now : Int)
    (q : List TranscriptionResult) (hfull : ¬ q.length < dgChannelCap) :
    messageCallback mr now q = q := by
  unfold messageCallback
  cases mr.alternatives with
  | nil => rfl
  | cons alternative rest =>
    dsimp only
    split
    · rfl
    · split
      · unfold trySendResult
        rw [if_neg hfull]
      · rfl

theorem dgStep_fifo (st : DGState) (ev : DGEvent)
    (h : st.received ++ st.queue = st.enqueued) :
    (dgStep st ev).received ++ (dgStep st ev).queue = (dgStep st ev).enqueued := by
  cases ev with
  | message mr now =>
    show st.received ++ messageCallback mr now st.queue =
      st.enqueued ++ (messageCallback mr now st.queue).drop st.queue.length
    by_cases hfull : st.queue.length < dgChannelCap
    · unfold messageCallback
      cases mr.alternatives with
      | nil => simp [← h]
      | cons alternative rest =>
        dsimp only
        split
        · simp [← h]
        · split
          · unfold trySendResult
            rw [if_pos hfull, ← h]
            simp [List.drop_append]
          · simp [← h]
    · rw [messageCallback_full mr now st.queue hfull, ← h]
      simp
  | receive =>
    show (dgStep st .receive).received ++ (dgStep st .receive).queue =
      (dgStep st .receive).enqueued
    unfold dgStep
    cases hq : st.queue with
    | nil => exact h
    | cons r rest =>
      dsimp only
      rw [← h, hq]
      simp

theorem runDG_fifo (evs : List DGEvent) :
    (runDG evs).received ++ (runDG evs).queue = (runDG evs).enqueued := by
  have hgen : ∀ (l : List DGEvent) (st : DGState),
      st.received ++ st.queue = st.enqueued →
      (l.foldl dgStep st).received ++ (l.foldl dgStep st).queue =
        (l.foldl dgStep st).enqueued := by
    intro l
    induction l with
    | nil => exact fun st h => h
    | cons ev tl ih => exact fun st h => ih (dgStep st ev) (dgStep_fifo st ev h)
  exact hgen evs { queue := [], received := [], enqueued := [] } rfl

/-- C10: when a finalized message reaches the callback while the session's
capacity-10 result channel is full, the callback returns without blocking and
without changing anything — the channel, the stream of successful enqueues,
and hence every future `ReceiveTranscription` outcome are exactly as if the
message had never arrived, so the dropped result is never returned. Moreover
everything `ReceiveTranscription` ever returns was enqueued at a moment the
channel had room (`received ++ queue = enqueued`, in FIFO order). -/
theorem deepgram_full_channel_drops (evs : List DGEvent) (mr : MessageResponse)
    (now : Int) (hfull : (runDG evs).queue.length = dgChannelCap) :
    dgStep (runDG evs) (.message mr now) = runDG evs ∧
    (runDG evs).received ++ (runDG evs).queue = (runDG evs).enqueued := by
  refine ⟨?_, runDG_fifo evs⟩
  show (let q := messageCallback mr now (runDG evs).queue
    { runDG evs with
      queue := q
      enqueued := (runDG evs).enqueued ++ q.drop (runDG evs).queue.length }) =
    runDG evs
  rw [messageCallback_full mr now (runDG evs).queue (by omega)]
  simp

/-- A finalized Deepgram message with one alternative. -/
def dgFinalMsg (t : String) : MessageResponse :=
  { alternatives := [{ transcript := t, altConfidence := 1 }], isFinal := true }

/-- Witness for `deepgram_full_channel_drops`: after ten finalized messages
the channel holds 10 results; an eleventh finalized message is dropped
without a trace. -/
theorem deepgram_full_channel_drops_witness :
    (runDG (List.replicate 10
        (DGEvent.message (dgFinalMsg "hello") 0))).queue.length =
      dgChannelCap ∧
    dgStep (runDG (List.replicate 10 (DGEvent.message (dgFinalMsg "hello") 0)))
      (.message (dgFinalMsg "dropped") 7) =
      runDG (List.replicate 10 (DGEvent.message (dgFinalMsg "hello") 0)) := by
  refine ⟨by decide, ?_⟩
  exact (deepgram_full_channel_drops _ _ 7 (by decide)).1

/-! ## C3: the server → client transcription message (spec-modelled) -/

/-- A JSON value, as far as the response message needs. -/
inductive JsonValue where
  | str (s : String)
  | num (q : Rat)
  deriving Repr, DecidableEq

/-- Modelled from the spec: the current websocket.go is missing from the
source tree — the revisions present define `WebSocketResponse` with only the
`sentence` field, while the current client (cmd/client/main.go) reads
`response.Confidence` and the README's API reference documents
`{"sentence": ..., "confidence": ...}`. Per the spec, the response carries
the transcribed text and the result's confidence. -/
structure WebSocketResponse where
  sentence : String
  respConfidence : Rat
  deriving Repr, DecidableEq

/-- Modelled from the spec: the JSON object written to the client for one
response has exactly the "sentence" and "confidence" fields. -/
def encodeResponse (resp : WebSocketResponse) : List (String × JsonValue) :=
  [("sentence", .str resp.sentence), ("confidence", .num resp.respConfidence)]

/-- Modelled from the spec: one iteration of the Connection Manager's writer
loop maps a finalized transcription to the response message built from its
text and confidence, and writes nothing for a non-final result. -/
def writerStep (r : TranscriptionResult) : Option WebSocketResponse :=
  if r.isFinal = true then some ⟨r.text, r.confidence⟩ else none

/-- C3: every finalized transcription forwarded to the client is written as a
JSON message that contains both a "sentence" field holding the transcribed
text and a "confidence" field holding the result's confidence, which lies in
[0, 1] whenever the result's does (adapters report absent vendor confidence
as 0). -/
theorem writer_emits_sentence_and_confidence (r : TranscriptionResult)
    (hf : r.isFinal = true) (h0 : 0 ≤ r.confidence) (h1 : r.confidence ≤ 1) :
    ∃ resp, writerStep r = some resp ∧
      ("sentence", JsonValue.str r.text) ∈ encodeResponse resp ∧
      ("confidence", JsonValue.num r.confidence) ∈ encodeResponse resp ∧
      0 ≤ resp.respConfidence ∧ resp.respConfidence ≤ 1 := by
  refine ⟨⟨r.text, r.confidence⟩, ?_, by simp [encodeResponse],
    by simp [encodeResponse], h0, h1⟩
  simp [writerStep, hf]

/-- The S1 scenario result: text "Hello world", final, confidence 0.95. -/
def s1Result : TranscriptionResult :=
  { text := "Hello world"
    isFinal := true
    confidence := 19/20
    providerName := "mock"
    receivedAt := 0 }

/-- Witness for `writer_emits_sentence_and_confidence` at the S1 scenario
result. -/
theorem writer_emits_sentence_and_confidence_witness :
    ∃ resp, writerStep s1Result = some resp ∧
      ("sentence", JsonValue.str s1Result.text) ∈ encodeResponse resp ∧
      ("confidence", JsonValue.num s1Result.confidence) ∈ encodeResponse resp ∧
      0 ≤ resp.respConfidence ∧ resp.respConfidence ≤ 1 :=
  writer_emits_sentence_and_confidence s1Result rfl (by norm_num [s1Result])
    (by norm_num [s1Result])

end STT
